import Mathlib

/-!
Shallow embedding of the RSS flow-hash subsystem of the ethtool repository.

The embedding covers:
* `flowhash/action.go` — the fill policies (`Equal`, `Weight`, `Default`, `Delete`)
  and the `SetConfig` option constructors of the `flowhash` package,
* the flow-hash protocol functions of the two coexisting implementations
  (`GetFlowHash`/`getFlowHashIndirectTable` of part_007 and part_009, and
  `SetFlowHash`/`setFlowHashIndirect` of part_009), modelled over an explicit
  device-transport record and a byte-exact model of the single variable-length
  ioctl buffer (24-byte `ethtool_rxfh` header followed by the table entries and
  the key bytes).

Go conventions used throughout:
* Go `int` is modelled as `Int`; `uint32` values are `Nat` together with an
  explicit reduction mod 2^32 at each Go `uint32(...)` conversion (`toUint32`).
* Go `/` and `%` on `int` truncate toward zero: `Int.tdiv` / `Int.tmod`.
* A Go runtime panic (division by zero, out-of-range index, failed single-value
  type assertion, method call on a nil interface) is the `GoRes.crash` outcome.
-/

namespace EthSpec

/-- 2^32, the wrap-around modulus of Go's `uint32`. -/
def U32MOD : Nat := 4294967296

/-- Go `uint32(x)` for `x : int`: two's-complement truncation to 32 bits.
Because 2^32 divides 2^64, applying this after any chain of wrapping 64-bit
additions gives the same result as applying it to the unbounded sum, so
`uint32(a + b)` may be modelled as `toUint32 (a + b)` directly. -/
def toUint32 (x : Int) : Nat := (Int.emod x (U32MOD : Int)).toNat

/-- Two's-complement normalisation of Go's 64-bit `int`: the representative of
`x` mod 2^64 lying in `[-2^63, 2^63)`.  Every Go `int` arithmetic operation
(`+`, `*`, and the `/` result, whose only out-of-range case `MinInt64 / -1`
wraps back to `MinInt64`) is the unbounded operation followed by this wrap. -/
def wrap64 (x : Int) : Int :=
  if x % 18446744073709551616 < 9223372036854775808 then x % 18446744073709551616
  else x % 18446744073709551616 - 18446744073709551616

/-- `flowhash.ETH_RXFH_CONTEXT_ALLOC` (action.go): "allocate new context" sentinel. -/
def ETH_RXFH_CONTEXT_ALLOC : Nat := 4294967295

/-- `flowhash.ETH_RXFH_INDIR_NO_CHANGE` (action.go): "no table size change" sentinel. -/
def ETH_RXFH_INDIR_NO_CHANGE : Nat := 4294967295

/-- Linux errno `EOPNOTSUPP` (= `ENOTSUP` on Linux). -/
def EOPNOTSUPP : Nat := 95

/-- Linux errno `ENOTSUP` (same value as `EOPNOTSUPP` on Linux). -/
def ENOTSUP : Nat := 95

/-- Linux errno `ERANGE`. -/
def ERANGE : Nat := 34

/-- Outcome of a Go computation that can terminate the program with a runtime
panic.  `crash` stands for any Go panic (divide by zero, index out of range,
failed single-value type assertion, nil-interface method call). -/
inductive GoRes (α : Type) where
  | ok (a : α) : GoRes α
  | crash : GoRes α
deriving DecidableEq, Repr

/-- Result of a `Fill` call: the table contents after the call (Go mutates the
slice in place; we return it), the returned `int`, and the returned `error`
(`none` = nil).  From `flowhash/action.go`. -/
structure FillRes where
  table : List Nat
  n : Int
  err : Option String
deriving DecidableEq, Repr

/-- `flowhash.Equal` (action.go): spread flows evenly between the first N
receive queues starting at `Start`. -/
structure Equal where
  Start : Int
  N : Int
deriving DecidableEq, Repr

/-- `flowhash.Weight` (action.go): spread flows according to `Weights`. -/
structure Weight where
  Start : Int
  Weights : List Int
deriving DecidableEq, Repr

/-- `(*Equal).Fill` (action.go lines 33–40):
```go
for i := range table {
    table[i] = uint32(e.Start + i%e.N)
}
return len(table), nil
```
When `e.N == 0` and the table is non-empty, the first loop iteration panics
with an integer divide by zero (`i % e.N`), so the call crashes. -/
def Equal.Fill (e : Equal) (table : List Nat) : GoRes FillRes :=
  if e.N = 0 ∧ table.length ≠ 0 then
    .crash
  else
    .ok ⟨(List.range table.length).map (fun (i : Nat) => toUint32 (e.Start + Int.tmod (i : Int) e.N)),
         (table.length : Int), none⟩

/-- The Go accumulation `for _, n := range w.Weights { sum += n }`: a left
fold in which each `+=` wraps mod 2^64 as Go `int` addition does. -/
def sumL (l : List Int) : Int := l.foldl (fun acc w => wrap64 (acc + w)) 0

/-- The inner loop of `(*Weight).Fill` (action.go lines 66–70):
```go
for i >= len(table)*partial/sum {
    j += 1
    partial += w.Weights[j]
}
```
`rest` is the suffix of `w.Weights` starting at index `j+1`; indexing past the
end of `Weights` is a Go panic (crash).  All three `int` computations of the
threshold wrap mod 2^64: the product `len(table)*partial`, the division
result, and the accumulation `partial += w.Weights[j]`.  (`j + 1` itself is
left unwrapped: `j` never exceeds `len(w.Weights)`, which as the length of a
Go slice fits an `int`.)  The loop-condition test is duplicated into both
list branches (checking the list first is needed for structural recursion);
the semantics is unchanged. -/
def wInner (L : Nat) (s : Int) (i : Nat) : Int → Int → List Int → GoRes (Int × Int × List Int)
  | j, acc, [] =>
    if (i : Int) ≥ wrap64 (Int.tdiv (wrap64 ((L : Int) * acc)) s) then .crash
    else .ok (j, acc, [])
  | j, acc, w :: rs =>
    if (i : Int) ≥ wrap64 (Int.tdiv (wrap64 ((L : Int) * acc)) s) then
      wInner L s i (j + 1) (wrap64 (acc + w)) rs
    else .ok (j, acc, w :: rs)

/-- The outer loop of `(*Weight).Fill` (action.go lines 66–72): iterates `n`
more indices starting at `i`, producing the table entries
`uint32(w.Start + j)`.  The `int` sum `w.Start + j` wraps mod 2^64 in Go, but
since 2^32 divides 2^64 the `uint32` conversion absorbs that wrap, so
`toUint32 (strt + j)` is the exact entry value. -/
def wOuter (L : Nat) (s strt : Int) : Nat → Nat → Int → Int → List Int → GoRes (List Nat)
  | 0, _, _, _, _ => .ok []
  | n + 1, i, j, acc, rest =>
    match wInner L s i j acc rest with
    | .crash => .crash
    | .ok (j', acc', rest') =>
      match wOuter L s strt n (i + 1) j' acc' rest' with
      | .crash => .crash
      | .ok tl => .ok (toUint32 (strt + j') :: tl)

/-- `(*Weight).Fill` (action.go lines 49–75).  Both validation guards test
the 64-bit-wrapped accumulated sum, exactly as the Go `sum` variable holds
it. -/
def Weight.Fill (w : Weight) (table : List Nat) : GoRes FillRes :=
  let s := sumL w.Weights
  if s = 0 then
    .ok ⟨table, 0, some "At least one weight must be non-zero"⟩
  else if s > (table.length : Int) then
    .ok ⟨table, 0, some "Total weight exceeds the size of the indirection table"⟩
  else
    match wOuter table.length s w.Start table.length 0 (-1) 0 w.Weights with
    | .crash => .crash
    | .ok t => .ok ⟨t, (table.length : Int), none⟩

/-- The dynamic value stored in a `flowhash.Action` interface variable.
`dflt` is `*flowhash.Default`, `delete` is `*flowhash.Delete`, `nilA` is the
nil interface (no `WithAction` option was applied). -/
inductive Action where
  | equal (e : Equal) : Action
  | weight (w : Weight) : Action
  | dflt : Action
  | delete : Action
  | nilA : Action
deriving DecidableEq, Repr

/-- Dynamic dispatch of `Action.Fill`.  `(*Default).Fill` returns `(0, nil)`;
`(*Delete).Fill` returns `(ETH_RXFH_INDIR_NO_CHANGE, nil)`; calling `Fill` on a
nil interface is a Go panic. -/
def Action.Fill : Action → List Nat → GoRes FillRes
  | .equal e, t => e.Fill t
  | .weight w, t => w.Fill t
  | .dflt, t => .ok ⟨t, 0, none⟩
  | .delete, t => .ok ⟨t, (ETH_RXFH_INDIR_NO_CHANGE : Int), none⟩
  | .nilA, _ => .crash

/-- Go single-value type assertion `a.(*flowhash.Equal) != nil`: panics unless
the dynamic type is `*Equal` (typed-nil pointers never occur in this API:
every action value is created by `&Equal{...}`, `new(Delete)`, ...). -/
def Action.asEqualNotNil : Action → GoRes Bool
  | .equal _ => .ok true
  | _ => .crash

/-- Go single-value type assertion `a.(*flowhash.Weight) != nil`. -/
def Action.asWeightNotNil : Action → GoRes Bool
  | .weight _ => .ok true
  | _ => .crash

/-- Go single-value type assertion `a.(*flowhash.Delete) == nil`: for an actual
(non-nil) `*Delete` the assertion succeeds and the comparison yields `false`;
for every other dynamic type the assertion panics. -/
def Action.asDeleteIsNil : Action → GoRes Bool
  | .delete => .ok false
  | _ => .crash

/-- `flowhash.SetConfig` (part_006).  `Key = []` models a nil key slice,
`Func = ""` an unset function name, `Context` is the `RSSContext` (uint32). -/
structure SetConfig where
  Key : List Nat := []
  Func : String := ""
  Context : Nat := 0
  Action : EthSpec.Action := .nilA
deriving Repr

/-- `flowhash.SetOption`. -/
def SetOption : Type := SetConfig → SetConfig

/-- `flowhash.WithHashKey` (part_006). -/
def WithHashKey (key : List Nat) : SetOption := fun c => { c with Key := key }

/-- `flowhash.WithHashFunc` (part_006). -/
def WithHashFunc (fn : String) : SetOption := fun c => { c with Func := fn }

/-- `flowhash.WithContext` (part_006). -/
def WithContext (context : Nat) : SetOption := fun c => { c with Context := context }

/-- `flowhash.NewContext` (part_006 lines 66–70):
```go
func NewContext(context RSSContext) SetOption {
    return func(c *SetConfig) {
        c.Context = ETH_RXFH_CONTEXT_ALLOC
    }
}
```
The `context` argument is not used in the body. -/
def NewContext (_context : Nat) : SetOption := fun c => { c with Context := ETH_RXFH_CONTEXT_ALLOC }

/-- `flowhash.WithAction` (part_006). -/
def WithAction (action : Action) : SetOption := fun c => { c with Action := action }

/-- `flowhash.DeleteContext` (part_006). -/
def DeleteContext (context : Nat) : SetOption :=
  fun c => { c with Context := context, Action := .delete }

/-- `flowhash.NewSetConfig` (part_006): applies the options in order to a
zero-valued config. -/
def NewSetConfig (opts : List SetOption) : SetConfig := opts.foldl (fun c o => o c) {}

/-! ## Byte-level model of the variable-length ioctl buffer

The flow-hash calls allocate one contiguous buffer: a fixed-size header
(`ethtool_rxfh`, 24 bytes: cmd, rss_context, indir_size, key_size — 4 bytes
each — hfunc + 3 reserved bytes, and 4 more reserved bytes; or
`ethtool_rxfhIndir`, 8 bytes) followed by the table entries (4 bytes each,
host little-endian) and the key bytes.  We model the header fields
symbolically and the payload (everything after the header) as a byte list. -/

/-- `unsafe.Sizeof(ethtoolRxfh{})` = 24 bytes (part_007 line 337 / part_009 line 513). -/
def sizeofEthtoolRxfh : Nat := 24

/-- `unsafe.Sizeof(ethtoolRxfhIndir{})` = 8 bytes (part_007 line 495 / part_009 line 672). -/
def sizeofEthtoolRxfhIndir : Nat := 8

/-- Byte read at offset `i`; reads outside the allocation never occur on the
paths the theorems traverse (the code clips or bound-checks first). -/
def byteAt (buf : List Nat) (i : Nat) : Nat := buf.getD i 0

/-- `n` bytes starting at offset `off`. -/
def readBytes (buf : List Nat) (off n : Nat) : List Nat := (buf.drop off).take n

/-- Overwrite `buf` starting at offset `off` with `data`, clipped to the
allocation: bytes a writer would place beyond the end of `buf` land outside
this allocation and are not visible through it. -/
def writeAt (buf : List Nat) (off : Nat) (data : List Nat) : List Nat :=
  buf.take off ++ data.take (buf.length - off) ++ buf.drop (off + data.length)

/-- Little-endian encoding of a `uint32` value. -/
def encodeU32 (x : Nat) : List Nat :=
  [x % 256, x / 256 % 256, x / 65536 % 256, x / 16777216 % 256]

/-- Little-endian encoding of a `[]uint32`. -/
def encodeU32s (l : List Nat) : List Nat := (l.map encodeU32).flatten

/-- The `uint32` at byte offset `off`. -/
def decodeU32At (buf : List Nat) (off : Nat) : Nat :=
  byteAt buf off + 256 * byteAt buf (off + 1) + 65536 * byteAt buf (off + 2) +
    16777216 * byteAt buf (off + 3)

/-- The first `n` `uint32` entries of `buf` (the `[1 << 24]uint32` /
`UnsafeRawIndirectTable` view over the region). -/
def decodeU32s (buf : List Nat) (n : Nat) : List Nat :=
  (List.range n).map fun i => decodeU32At buf (4 * i)

/-! ## Errors and the device-transport model -/

/-- Go error values as the flow-hash code builds them: a raw `syscall.Errno`
returned by the ioctl, an `fmt.Errorf("msg, %w", err)` wrapper, or an
`errors.New`/`fmt.Errorf` message.  `errors.Is(err, e)` on a wrapped chain
reaches the inner errno; both implementations compare against raw errnos
before wrapping, so `errno` equality is the faithful test at each use site. -/
inductive EthErr where
  | errno (e : Nat) : EthErr
  | wrapped (msg : String) (inner : EthErr) : EthErr
  | msg (s : String) : EthErr
deriving DecidableEq, Repr

/-- `flowhash.FlowHash` (part_006) / `FlowHash` (part_007): query result.
`Key = []` models a nil key, `Funcs = []` a nil map; `Funcs` is the
name → enabled mapping as an association list in device string-set order. -/
structure FlowHash where
  RingCount : Nat
  Key : List Nat
  Funcs : List (String × Bool)
  Table : List Nat
deriving DecidableEq, Repr

/-- Header fields the kernel fills into a header-only `ETHTOOL_GRSSH` probe. -/
structure RxfhProbe where
  indir_size : Nat
  key_size : Nat
  hfunc : Nat
deriving DecidableEq, Repr

/-- The kernel's response to a full-size `ETHTOOL_GRSSH` request: the header
fields it stores and the table entries / key bytes it writes after the header
(the table at offset 24, the key right after the `indir_size` entries it
reports, i.e. at offset `24 + 4*indir_size`). -/
structure RxfhResp where
  indir_size : Nat
  key_size : Nat
  hfunc : Nat
  table : List Nat
  key : List Nat
deriving DecidableEq, Repr

/-- The request the code submits with `ETHTOOL_SRSSH` (part_009): the header
fields it set plus the payload bytes following the header. -/
structure SrsshReq where
  rss_context : Nat
  hfunc : Nat
  indir_size : Nat
  key_size : Nat
  payload : List Nat
deriving DecidableEq, Repr

/-- Deterministic model of one interface's ioctl transport: each field gives
the device's response to one request shape (`.error e` = the raw errno the
ioctl returns).  `hashFuncs` abstracts the `getStringSet(intf,
ETH_SS_RSS_HASH_FUNCS, 0)` subroutine — identical in both implementations —
as the name → bit-index mapping it produces (or the error it returns). -/
structure Dev where
  /-- `ETHTOOL_GRXRINGS`: ring count (`ethtoolRxnfc.data`). -/
  rings : Except Nat Nat
  /-- Header-only `ETHTOOL_GRSSH` probe, by requested `rss_context`. -/
  probe : Nat → Except Nat RxfhProbe
  /-- Full-size `ETHTOOL_GRSSH`, by (`rss_context`, requested `indir_size`,
  requested `key_size`). -/
  full : Nat → Nat → Nat → Except Nat RxfhResp
  /-- `getStringSet(intf, ETH_SS_RSS_HASH_FUNCS, 0)` outcome. -/
  hashFuncs : Except Nat (List (String × Nat))
  /-- Header-only `ETHTOOL_GRXFHINDIR` probe: the table size. -/
  indirProbe : Except Nat Nat
  /-- Second `ETHTOOL_GRXFHINDIR` call, by the `size` field of the submitted
  header: the size and the table entries the kernel writes back (after
  whatever buffer it was actually handed). -/
  indirSecond : Nat → Except Nat (Nat × List Nat)
  /-- `ETHTOOL_SRSSH`: result, and the `rss_context` the kernel stores into
  the submitted header (the assigned context id). -/
  srssh : SrsshReq → Except Nat Nat
  /-- `ETHTOOL_SRXFHINDIR`, by (`size` field, payload bytes). -/
  srxfhindir : Nat → List Nat → Except Nat Unit

/-- The payload bytes (after the 24-byte header) of the full-size `GRSSH`
buffer once the kernel has answered: the allocation is
`4*probedIndir + probedKey` zeroed bytes (`C.calloc`), into which the kernel
writes its table entries at offset 0 and its key bytes right after the
`r.indir_size` entries it reports; writes beyond the allocation are clipped
(they corrupt unrelated memory and are invisible through this buffer). -/
def respPayload (probedIndir probedKey : Nat) (r : RxfhResp) : List Nat :=
  writeAt (writeAt (List.replicate (4 * probedIndir + probedKey) 0) 0 (encodeU32s r.table))
    (4 * r.indir_size) r.key

/-! ## The two coexisting flow-hash implementations -/

/-- `(*Ethtool).getFlowHashIndirectTable` of part_009 (lines 1184–1220).
After the `GRXFHINDIR` size probe it allocates the full-size zeroed buffer
`indir` and fills in `indir.cmd`/`indir.size`, but the second ioctl is issued
on `&indirHead` (the 8-byte probe struct) — `indir` is never handed to the
kernel.  The kernel's response lands after `indirHead` (modelled by
`dev.indirSecond`, whose content is therefore discarded), and the copy into
the owned table reads the untouched zeroed `indir` payload. -/
def getFlowHashIndirectTable009 (dev : Dev) : Except EthErr (List Nat) :=
  match dev.indirProbe with
  | .error e => .error (.wrapped "get RX flow hash indirection table size" (.errno e))
  | .ok n =>
    match dev.indirSecond n with
    | .error e => .error (.wrapped "get RX flow hash indirection table" (.errno e))
    | .ok _ =>
      let payload : List Nat := List.replicate (4 * n) 0
      if n = 0 then .error (.errno ENOTSUP)
      else if sizeofEthtoolRxfhIndir + 4 * n > sizeofEthtoolRxfhIndir + 4 * n then
        .error (.wrapped "get RX flow indirect table" (.errno ERANGE))
      else .ok (decodeU32s payload n)

/-- `(*Ethtool).getFlowHashIndirectTable` of part_007 (lines 1048–1080): the
same logic (including the second ioctl issued on `&indirHead` instead of the
allocated buffer); `indir.size` still holds the probed size when tested and
when used as the copy length. -/
def getFlowHashIndirectTable007 (dev : Dev) : Except EthErr (List Nat) :=
  match dev.indirProbe with
  | .error e => .error (.wrapped "get RX flow hash indirection table size" (.errno e))
  | .ok n =>
    match dev.indirSecond n with
    | .error e => .error (.wrapped "get RX flow hash indirection table" (.errno e))
    | .ok _ =>
      let payload : List Nat := List.replicate (4 * n) 0
      if n = 0 then .error (.errno ENOTSUP)
      else if sizeofEthtoolRxfhIndir + 4 * n > sizeofEthtoolRxfhIndir + 4 * n then
        .error (.wrapped "get RX flow indirect table" (.errno ERANGE))
      else .ok (decodeU32s payload n)

/-- `(*Ethtool).GetFlowHash` of part_009 (lines 1103–1182).  `context` is
`flowhash.NewConfig(opts).Context`.  Notable details kept from the source:
the bounds test before the table copy compares `sizeofEthtoolRxfh +
table.Size()` (the *probed* table size) against `sz` (computed from the same
probed sizes); the copy into the probed-length table is clipped at
`rss.indir_size` (the *response* header value); the key offset uses the
probed table size; a zero response `hfunc` aborts the call with `ENOTSUP`. -/
def GetFlowHash009 (dev : Dev) (context : Nat) : Except EthErr FlowHash :=
  match dev.rings with
  | .error e => .error (.wrapped "get RX ring count" (.errno e))
  | .ok ringCount =>
    match dev.probe context with
    | .error e =>
      if e = EOPNOTSUPP ∧ context ≠ 0 then
        match getFlowHashIndirectTable009 dev with
        | .error e2 => .error e2
        | .ok table => .ok ⟨ringCount, [], [], table⟩
      else .error (.wrapped "get RX flow hash indir size and/or key size" (.errno e))
    | .ok rssHead =>
      let sz := sizeofEthtoolRxfh + 4 * rssHead.indir_size + rssHead.key_size
      match dev.full context rssHead.indir_size rssHead.key_size with
      | .error e => .error (.wrapped "get RX flow hash configuration" (.errno e))
      | .ok rss =>
        let payload := respPayload rssHead.indir_size rssHead.key_size rss
        if sizeofEthtoolRxfh + 4 * rssHead.indir_size > sz then
          .error (.wrapped "get RX flow indirect table" (.errno ERANGE))
        else
          let table := decodeU32s payload (min rssHead.indir_size rss.indir_size) ++
            List.replicate (rssHead.indir_size - min rssHead.indir_size rss.indir_size) 0
          match (if rss.key_size > 0 then
                   if sizeofEthtoolRxfh + 4 * rssHead.indir_size + rss.key_size > sz then none
                   else some (readBytes payload (4 * rssHead.indir_size) rss.key_size)
                 else some ([] : List Nat)) with
          | none => .error (.errno ERANGE)
          | some key =>
            if rss.hfunc = 0 then .error (.errno ENOTSUP)
            else
              match dev.hashFuncs with
              | .error e => .error (.wrapped "get hash functions names" (.errno e))
              | .ok hfuncs =>
                .ok ⟨ringCount, key,
                     hfuncs.map fun p => (p.1, (rss.hfunc &&& (1 <<< p.2)) != 0), table⟩

/-- `(*Ethtool).GetFlowHash` of part_007 (lines 963–1046).  Differences from
part_009 kept from the source: the bounds test before the table copy uses
`rss.indir_size` (the *response* header value), the owned table has that
response length, and the key offset is computed from the response table
size. -/
def GetFlowHash007 (dev : Dev) (context : Nat) : Except EthErr FlowHash :=
  match dev.rings with
  | .error e => .error (.wrapped "get RX ring count" (.errno e))
  | .ok ringCount =>
    match dev.probe context with
    | .error e =>
      if e = EOPNOTSUPP ∧ context ≠ 0 then
        match getFlowHashIndirectTable007 dev with
        | .error e2 => .error e2
        | .ok table => .ok ⟨ringCount, [], [], table⟩
      else .error (.wrapped "get RX flow hash indir size and/or key size" (.errno e))
    | .ok rssHead =>
      let sz := sizeofEthtoolRxfh + 4 * rssHead.indir_size + rssHead.key_size
      match dev.full context rssHead.indir_size rssHead.key_size with
      | .error e => .error (.wrapped "get RX flow hash configuration" (.errno e))
      | .ok rss =>
        let payload := respPayload rssHead.indir_size rssHead.key_size rss
        if sizeofEthtoolRxfh + 4 * rss.indir_size > sz then
          .error (.wrapped "get RX flow indirect table" (.errno ERANGE))
        else
          let table := decodeU32s payload rss.indir_size
          match (if rss.key_size > 0 then
                   if sizeofEthtoolRxfh + 4 * rss.indir_size + rss.key_size > sz then none
                   else some (readBytes payload (4 * rss.indir_size) rss.key_size)
                 else some ([] : List Nat)) with
          | none => .error (.errno ERANGE)
          | some key =>
            if rss.hfunc = 0 then .error (.errno ENOTSUP)
            else
              match dev.hashFuncs with
              | .error e => .error (.wrapped "get hash functions names" (.errno e))
              | .ok hfuncs =>
                .ok ⟨ringCount, key,
                     hfuncs.map fun p => (p.1, (rss.hfunc &&& (1 <<< p.2)) != 0), table⟩

/-- `(*Ethtool).setFlowHashIndirect` of part_009 (lines 1314–1342): legacy
context-free set path.  `none` = nil error. -/
def setFlowHashIndirect009 (dev : Dev) (c : SetConfig) : GoRes (Option EthErr) :=
  match dev.indirProbe with
  | .error e => .ok (some (.wrapped "get RX flow hash indirection table size" (.errno e)))
  | .ok n =>
    match c.Action.Fill (List.replicate n 0) with
    | .crash => .crash
    | .ok fr =>
      match fr.err with
      | some s => .ok (some (.wrapped "fill RX flow hash indirection table" (.msg s)))
      | none =>
        match dev.srxfhindir (toUint32 fr.n) (encodeU32s fr.table) with
        | .error e => .ok (some (.wrapped "set RX flow hash indirection table" (.errno e)))
        | .ok _ => .ok none

/-- `(*Ethtool).SetFlowHash` of part_009 (lines 1224–1310).  `c` is
`flowhash.NewSetConfig(opts)`.  The source uses Go *single-value* type
assertions on `c.Action` (`c.Action.(*flowhash.Delete) == nil` at lines 1236
and 1278, `c.Action.(*flowhash.Equal) != nil || c.Action.(*flowhash.Weight)
!= nil` at line 1246); a single-value assertion panics when the dynamic type
differs, which the model renders as `crash`.  In the fill branch the raw
table view has `rssHead.indir_size` entries over a region of `indirBytes`
bytes, and the entries written are visible through the buffer only up to the
allocation (`writeAt` clips). -/
def SetFlowHash009 (dev : Dev) (c : SetConfig) : GoRes (Except EthErr Nat) :=
  match dev.rings with
  | .error e => .ok (.error (.wrapped "get RX ring count" (.errno e)))
  | .ok _ringCount =>
    match dev.probe 0 with
    | .error e =>
      if e = EOPNOTSUPP ∧ c.Key = [] ∧ c.Func = "" then
        match c.Action.asDeleteIsNil with
        | .crash => .crash
        | .ok true =>
          match setFlowHashIndirect009 dev c with
          | .crash => .crash
          | .ok none => .ok (.ok 0)
          | .ok (some err) => .ok (.error err)
        | .ok false =>
          .ok (.error (.wrapped "get RX flow hash indir size and key size" (.errno e)))
      else .ok (.error (.wrapped "get RX flow hash indir size and key size" (.errno e)))
    | .ok rssHead =>
      match (match c.Action.asEqualNotNil with
             | .crash => .crash
             | .ok true => .ok true
             | .ok false => c.Action.asWeightNotNil : GoRes Bool) with
      | .crash => .crash
      | .ok mutatesTable =>
        let indirBytes := if mutatesTable then 4 * rssHead.indir_size else 0
        match (if rssHead.hfunc ≠ 0 ∧ c.Func ≠ "" then
                 match dev.hashFuncs with
                 | .error e => .error (EthErr.wrapped "get hash functions names" (.errno e))
                 | .ok funcs =>
                   match funcs.lookup c.Func with
                   | some v =>
                     if (1 <<< v) % 256 = 0 then
                       .error (.msg ("unknown hash function `" ++ c.Func ++ "`"))
                     else .ok ((1 <<< v) % 256)
                   | none => .error (.msg ("unknown hash function `" ++ c.Func ++ "`"))
               else (.ok 0 : Except EthErr Nat)) with
        | .error err => .ok (.error err)
        | .ok hfunc =>
          match c.Action.asDeleteIsNil with
          | .crash => .crash
          | .ok notDelete =>
            match (if notDelete then
                     match c.Action.Fill (List.replicate rssHead.indir_size 0) with
                     | .crash => GoRes.crash
                     | .ok fr =>
                       match fr.err with
                       | some s =>
                         .ok (.error (EthErr.wrapped "fill RX flow hash indirection table" (.msg s)))
                       | none =>
                         .ok (.ok (rssHead.key_size, toUint32 fr.n,
                               writeAt (List.replicate (indirBytes + rssHead.key_size) 0) 0
                                 (encodeU32s fr.table)))
                   else
                     .ok (.ok (0, 0, List.replicate (indirBytes + rssHead.key_size) 0)) :
                     GoRes (Except EthErr (Nat × Nat × List Nat))) with
            | .crash => .crash
            | .ok (.error err) => .ok (.error err)
            | .ok (.ok (key_size, indir_size, payload1)) =>
              let payload2 := if c.Key ≠ [] then writeAt payload1 indirBytes c.Key else payload1
              match dev.srssh ⟨c.Context, hfunc, indir_size, key_size, payload2⟩ with
              | .error e => .ok (.error (.wrapped "set RX flow hash configuration" (.errno e)))
              | .ok newCtx => .ok (.ok (if c.Context = ETH_RXFH_CONTEXT_ALLOC then newCtx else 0))

/-! ## Specification-side characterisation of the weighted fill -/

/-- The run threshold the code computes after consuming the first `m` weights:
`len(table) * partial / sum` with wrapping 64-bit multiplication, Go
(truncated) integer division, and the 64-bit wrap of the quotient — exactly
the `int` value the loop condition compares against. -/
def thrT (L : Nat) (ws : List Int) (m : Nat) : Int :=
  wrap64 (Int.tdiv (wrap64 ((L : Int) * sumL (ws.take m))) (sumL ws))

/-- `m` is the least weight-consumption count whose threshold exceeds `i`
(equivalently, `m - 1` is the run index assigned to table index `i`). -/
def leastM (L : Nat) (ws : List Int) (i m : Nat) : Prop :=
  (i : Int) < thrT L ws m ∧ ∀ j, j < m → thrT L ws j ≤ (i : Int)

/-! ## Concrete devices used as test inputs -/

/-- Baseline device: every request fails with `EOPNOTSUPP`, except the ring
count query which reports 4 rings. -/
def devBase : Dev := {
  rings := .ok 4
  probe := fun _ => .error 95
  full := fun _ _ _ => .error 95
  hashFuncs := .error 95
  indirProbe := .error 95
  indirSecond := fun _ => .error 95
  srssh := fun _ => .error 95
  srxfhindir := fun _ _ => .error 95
}

/-- Device whose `GRSSH` size probe succeeds (indir_size 8, key_size 0,
hfunc bit 0); used against `SetFlowHash009`. -/
def devC4 : Dev := { devBase with probe := fun _ => .ok ⟨8, 0, 1⟩ }

/-- Device that echoes the probed sizes in the full-size response but reports
a zero hash-function bitmask. -/
def devC5 : Dev := { devBase with
  probe := fun _ => .ok ⟨2, 0, 0⟩
  full := fun _ _ _ => .ok ⟨2, 0, 0, [7, 7], []⟩
}

/-- Misbehaving device: the probe reports indir_size 2 / key_size 0, but the
full-size response claims indir_size 3 (table `[7,7,7]`), so the reported
table end (24 + 12 bytes) exceeds the 32-byte allocation. -/
def devC6 : Dev := { devBase with
  probe := fun _ => .ok ⟨2, 0, 1⟩
  full := fun _ _ _ => .ok ⟨3, 0, 1, [7, 7, 7], []⟩
  hashFuncs := .ok [("toeplitz", 0)]
}

/-- Device on which the `GRSSH` probe fails with `EOPNOTSUPP` while the
legacy `GRXFHINDIR` path reports table size 2 and answers the full-size
legacy query with entries `[5, 6]`. -/
def devC8 : Dev := { devBase with
  indirProbe := .ok 2
  indirSecond := fun _ => .ok (2, [5, 6])
}

/-- Well-behaved device that echoes the probed sizes (indir_size 2,
key_size 4) and reports two named hash functions with bit 0 set. -/
def devC10 : Dev := {
  rings := .ok 4
  probe := fun _ => .ok ⟨2, 4, 1⟩
  full := fun _ i k => .ok ⟨i, k, 1, List.replicate i 7, List.replicate k 9⟩
  hashFuncs := .ok [("toeplitz", 0), ("xor", 1)]
  indirProbe := .error 95
  indirSecond := fun _ => .error 95
  srssh := fun _ => .error 95
  srxfhindir := fun _ _ => .error 95
}

/-! # Theorems -/

/-- C9: the `NewContext` option constructor ignores its argument — it always
stores the allocate sentinel `ETH_RXFH_CONTEXT_ALLOC` (0xFFFFFFFF) into the
config's `Context`, so `NewContext c1` and `NewContext c2` transform any
`SetConfig` identically. -/
theorem C9_newcontext_ignores_arg :
    ∀ (c1 c2 : Nat) (s : SetConfig),
      NewContext c1 s = NewContext c2 s ∧
      (NewContext c1 s).Context = ETH_RXFH_CONTEXT_ALLOC :=
  fun _ _ _ => ⟨rfl, rfl⟩

/-- C3 (code behaviour at the claimed input): `Equal.Fill` with divisor
`N = 0` on any non-empty table performs `i % 0` on the first loop iteration
and panics with a division by zero instead of returning a policy error. -/
theorem C3_equal_zero_divisor_crashes :
    ∀ (S : Int) (tbl : List Nat), tbl ≠ [] → Equal.Fill ⟨S, 0⟩ tbl = .crash := by
  intro S tbl htbl
  unfold Equal.Fill
  rw [if_pos ⟨rfl, by simpa using htbl⟩]

/-- C3 witness: the zero-divisor crash at a concrete input. -/
theorem C3_witness : Equal.Fill ⟨0, 0⟩ [0, 0] = .crash :=
  C3_equal_zero_divisor_crashes 0 [0, 0] (by decide)

/-- C4 (code behaviour at the claimed input): with a successful `GRSSH` size
probe, `SetFlowHash` of part_009 panics for an `Equal` action (single-value
type assertion `c.Action.(*flowhash.Delete)` at line 1278) and for a `Weight`
action (single-value type assertion `c.Action.(*flowhash.Equal)` at line
1246); it never runs the fill, never stores the applied count, and never
issues the `SRSSH` ioctl. -/
theorem C4_setflowhash_panics :
    devC4.probe 0 = .ok ⟨8, 0, 1⟩ ∧
    SetFlowHash009 devC4 { Action := .equal ⟨0, 2⟩ } = .crash ∧
    SetFlowHash009 devC4 { Action := .weight ⟨0, [1, 1]⟩ } = .crash :=
  ⟨rfl, rfl, rfl⟩

/-- C6 (code behaviour at the claimed input): the full-size response of
`devC6` reports `indir_size = 3`, whose table end `24 + 4*3` exceeds the
allocated `24 + 4*2 + 0` bytes, yet `GetFlowHash` of part_009 does not fail
with `ERANGE`: its guard compares the probed size against itself and cannot
fire, and the call succeeds with the clipped table `[7, 7]`.  `GetFlowHash`
of part_007, which checks the response size, fails with `ERANGE` as the
claim demands. -/
theorem C6_range_guard_dead :
    devC6.probe 0 = .ok ⟨2, 0, 1⟩ ∧
    devC6.full 0 2 0 = .ok ⟨3, 0, 1, [7, 7, 7], []⟩ ∧
    sizeofEthtoolRxfh + 4 * 3 > sizeofEthtoolRxfh + 4 * 2 + 0 ∧
    GetFlowHash009 devC6 0 = .ok ⟨4, [], [("toeplitz", true)], [7, 7]⟩ ∧
    GetFlowHash007 devC6 0 = .error (.wrapped "get RX flow indirect table" (.errno ERANGE)) :=
  ⟨rfl, rfl, by decide, rfl, rfl⟩

/-- C8 (code behaviour at the claimed input): in the legacy fallback of
part_009's `GetFlowHash`, the kernel's full-size legacy response carries the
table entries `[5, 6]`, but the second ioctl was issued on the header-only
probe struct rather than the allocated full-size buffer, so the decoded
table is the untouched zero-filled allocation `[0, 0]`, not the kernel's
entries. -/
theorem C8_legacy_table_zeroed :
    devC8.indirSecond 2 = .ok (2, [5, 6]) ∧
    GetFlowHash009 devC8 1 = .ok ⟨4, [], [], [0, 0]⟩ ∧
    ([0, 0] : List Nat) ≠ [5, 6] :=
  ⟨rfl, rfl, by decide⟩

/-- C2 counterexample: the claim's entry formula `table[i] = S + (i mod N)`
fails as an integer identity once the Go `uint32` conversion wraps: at
`S = -1`, `N = 1`, table length 1, the stored entry is `4294967295`, not
`-1 + (0 mod 1)`. -/
theorem C2_equal_fill_cex :
    Equal.Fill ⟨-1, 1⟩ [0] = .ok ⟨[4294967295], 1, none⟩ ∧
    ¬(((4294967295 : Nat) : Int) = -1 + Int.emod ((0 : Nat) : Int) 1) :=
  ⟨rfl, by decide⟩

/-- C2 (amended): for every start `S`, divisor `N > 0` and table, `Equal.Fill`
returns `(len(table), nil)` and sets `table[i]` to `(S + (i mod N))` reduced
mod 2^32 (the Go `uint32` conversion); the claim's example L=8, S=0, N=3
gives `[0,1,2,0,1,2,0,1]`. -/
theorem C2_equal_fill :
    (∀ (S N : Int) (tbl : List Nat), 0 < N →
      ∃ out, Equal.Fill ⟨S, N⟩ tbl = .ok ⟨out, (tbl.length : Int), none⟩ ∧
        out.length = tbl.length ∧
        ∀ i, i < tbl.length → out.getD i 0 = toUint32 (S + Int.emod (i : Int) N)) ∧
    Equal.Fill ⟨0, 3⟩ (List.replicate 8 0) = .ok ⟨[0, 1, 2, 0, 1, 2, 0, 1], 8, none⟩ := by
  constructor
  · intro S N tbl hN
    refine ⟨(List.range tbl.length).map (fun (i : Nat) => toUint32 (S + Int.tmod (i : Int) N)),
      ?_, by simp, ?_⟩
    · unfold Equal.Fill
      rw [if_neg (by rintro ⟨h0, _⟩; exact absurd h0 (ne_of_gt hN))]
    · intro i hi
      rw [List.getD_eq_getElem?_getD, List.getElem?_eq_getElem (by simpa using hi)]
      simp only [List.getElem_map, List.getElem_range, Option.getD_some]
      rw [Int.tmod_eq_emod (Int.natCast_nonneg i) (le_of_lt hN)]
      rfl
  · rfl

/-- C2 witness: the amended equal-fill theorem applied at S=5, N=3, a table
of length 4. -/
theorem C2_equal_fill_witness :
    ∃ out, Equal.Fill ⟨5, 3⟩ [9, 9, 9, 9] =
        .ok ⟨out, (([9, 9, 9, 9] : List Nat).length : Int), none⟩ ∧
      out.length = ([9, 9, 9, 9] : List Nat).length ∧
      ∀ i, i < ([9, 9, 9, 9] : List Nat).length →
        out.getD i 0 = toUint32 (5 + Int.emod (i : Int) 3) :=
  C2_equal_fill.1 5 3 [9, 9, 9, 9] (by decide)

/-- C7 (code behaviour): the two `Weight.Fill` validation failures behave as
claimed at the `Fill` level — a zero *computed* weight sum (the Go `sum`
variable, accumulated with 64-bit wrap, as `sumL` models it) yields the
no-effective-weight error, a computed sum exceeding the table length yields
the capacity error, both with applied count 0 and the table unmodified; four
weights of `2^62` wrap to a computed sum of 0 and take the no-effective-weight
branch.  But inside part_009's `SetFlowHash` the error is never reported:
with a `Weight` action the call panics on the single-value type assertion
`c.Action.(*flowhash.Equal)` (line 1246) before `Fill` ever runs (and the
`GRXRINGS`/`GRSSH` query ioctls have already been issued at that point). -/
theorem C7_weight_validation :
    (∀ (S : Int) (ws : List Int) (tbl : List Nat), sumL ws = 0 →
      Weight.Fill ⟨S, ws⟩ tbl = .ok ⟨tbl, 0, some "At least one weight must be non-zero"⟩) ∧
    (∀ (S : Int) (ws : List Int) (tbl : List Nat), sumL ws > (tbl.length : Int) →
      Weight.Fill ⟨S, ws⟩ tbl =
        .ok ⟨tbl, 0, some "Total weight exceeds the size of the indirection table"⟩) ∧
    SetFlowHash009 devC4 { Action := .weight ⟨0, [0]⟩ } = .crash ∧
    Weight.Fill ⟨0, [4611686018427387904, 4611686018427387904, 4611686018427387904,
        4611686018427387904]⟩ [5, 5] =
      .ok ⟨[5, 5], 0, some "At least one weight must be non-zero"⟩ := by
  refine ⟨?_, ?_, rfl, rfl⟩
  · intro S ws tbl h
    unfold Weight.Fill
    rw [if_pos h]
  · intro S ws tbl h
    have hpos : (0 : Int) < sumL ws := lt_of_le_of_lt (Int.natCast_nonneg _) h
    unfold Weight.Fill
    rw [if_neg (ne_of_gt hpos), if_pos h]

/-- C7 witness: both validation errors at the spec's concrete inputs
(weights `[0,0]`, and weights `[5,5]` against a table of length 9). -/
theorem C7_weight_validation_witness :
    Weight.Fill ⟨0, [0, 0]⟩ [5, 5] =
      .ok ⟨[5, 5], 0, some "At least one weight must be non-zero"⟩ ∧
    Weight.Fill ⟨0, [5, 5]⟩ (List.replicate 9 0) =
      .ok ⟨List.replicate 9 0, 0, some "Total weight exceeds the size of the indirection table"⟩ :=
  ⟨C7_weight_validation.1 0 [0, 0] [5, 5] (by decide),
   C7_weight_validation.2.1 0 [5, 5] (List.replicate 9 0) (by decide)⟩

/-- C5 counterexample: on a device that echoes the probed sizes but reports
a zero hash-function bitmask, part_009's `GetFlowHash` does not return a
successful degraded `FlowHash` — the whole call fails with `ENOTSUP`. -/
theorem C5_zero_hfunc_cex :
    GetFlowHash009 devC5 0 = .error (.errno ENOTSUP) ∧
    ∀ fh, GetFlowHash009 devC5 0 ≠ .ok fh := by
  refine ⟨rfl, ?_⟩
  intro fh h
  rw [show GetFlowHash009 devC5 0 = Except.error (EthErr.errno ENOTSUP) from rfl] at h
  exact Except.noConfusion h

/-- C5 (amended): whenever the ring query, the size probe and the full-size
`GRSSH` query all succeed and the response key size fits the probed
allocation, a zero response `hfunc` bitmask makes part_009's `GetFlowHash`
fail the entire call with `ENOTSUP`; the ring count, table and key that were
already decoded are discarded. -/
theorem C5_zero_hfunc_fails (dev : Dev) (context rc : Nat) (pr : RxfhProbe) (r : RxfhResp)
    (hr : dev.rings = .ok rc) (hp : dev.probe context = .ok pr)
    (hf : dev.full context pr.indir_size pr.key_size = .ok r)
    (hk : r.key_size ≤ pr.key_size) (hz : r.hfunc = 0) :
    GetFlowHash009 dev context = .error (.errno ENOTSUP) := by
  simp only [GetFlowHash009, hr, hp, hf]
  rw [if_neg (by omega)]
  by_cases hky : r.key_size > 0
  · rw [if_pos hky, if_neg (by omega)]
    simp only [hz]
    rw [if_pos trivial]
  · rw [if_neg hky]
    simp only [hz]
    rw [if_pos trivial]

/-- C5 witness: the amended zero-bitmask theorem applied to the concrete
device `devC5`. -/
theorem C5_zero_hfunc_witness : GetFlowHash009 devC5 0 = .error (.errno ENOTSUP) :=
  C5_zero_hfunc_fails devC5 0 4 ⟨2, 0, 0⟩ ⟨2, 0, 0, [7, 7], []⟩ rfl rfl rfl (by decide) rfl

/-! ## Loop invariant of the weighted fill -/

/-- Values already in `[-2^63, 2^63)` are fixed by the 64-bit wrap. -/
lemma wrap64_eq_self {x : Int} (h1 : -9223372036854775808 ≤ x)
    (h2 : x < 9223372036854775808) : wrap64 x = x := by
  unfold wrap64
  split <;> omega

/-- Truncated division by a positive divisor keeps `int64`-ranged dividends
in range. -/
lemma tdiv_range {x s : Int} (hx1 : -9223372036854775808 ≤ x)
    (hx2 : x < 9223372036854775808) (hs : 0 < s) :
    -9223372036854775808 ≤ Int.tdiv x s ∧ Int.tdiv x s < 9223372036854775808 := by
  rcases le_or_lt 0 x with hx | hx
  · have h1 : 0 ≤ Int.tdiv x s := Int.tdiv_nonneg hx (le_of_lt hs)
    have h2 : Int.tdiv x s ≤ x := by
      rw [Int.tdiv_eq_ediv hx (le_of_lt hs)]
      exact Int.ediv_le_self s hx
    constructor <;> omega
  · have hneg : Int.tdiv x s = -(Int.tdiv (-x) s) := by
      rw [← Int.neg_tdiv, neg_neg]
    have h1 : 0 ≤ Int.tdiv (-x) s := Int.tdiv_nonneg (by omega) (le_of_lt hs)
    have h2 : Int.tdiv (-x) s ≤ -x := by
      rw [Int.tdiv_eq_ediv (by omega) (le_of_lt hs)]
      exact Int.ediv_le_self s (by omega)
    constructor <;> omega

/-- Cumulative wrapped weight through one more run: what `partial` holds
after consuming `m + 1` weights. -/
lemma sumL_take_succ (ws : List Int) (m : Nat) (hm : m < ws.length) :
    sumL (ws.take (m + 1)) = wrap64 (sumL (ws.take m) + ws[m]) := by
  unfold sumL
  rw [List.take_succ, List.getElem?_eq_getElem hm]
  simp only [Option.toList_some, List.foldl_append, List.foldl_cons, List.foldl_nil]

/-- When every prefix of the mathematical sums stays in `int64` range, the
wrapped accumulation computes exactly those sums. -/
lemma sumL_eq_sum (ws : List Int)
    (H1 : ∀ m, m ≤ ws.length →
      -9223372036854775808 ≤ (ws.take m).sum ∧ (ws.take m).sum < 9223372036854775808) :
    ∀ m, m ≤ ws.length → sumL (ws.take m) = (ws.take m).sum := by
  intro m
  induction m with
  | zero => intro _; rfl
  | succ k ih =>
    intro hk
    have hklen : k < ws.length := by omega
    rw [sumL_take_succ ws k hklen, ih (by omega), ← List.sum_take_succ ws k hklen]
    exact wrap64_eq_self (H1 (k + 1) hk).1 (H1 (k + 1) hk).2

/-- Threshold before any weight is consumed. -/
lemma thrT_zero (L : Nat) (ws : List Int) : thrT L ws 0 = 0 := by
  unfold thrT
  rw [show sumL (ws.take 0) = 0 from rfl, mul_zero, show wrap64 0 = 0 by decide,
    Int.zero_tdiv, show wrap64 0 = 0 by decide]

/-- When the prefix sums and the products `L * prefix-sum` stay in `int64`
range and the total is positive, the code's wrapped threshold equals the
unbounded truncated quotient `L * prefix-sum / sum`. -/
lemma thrT_eq_tdiv (L : Nat) (ws : List Int)
    (H1 : ∀ m, m ≤ ws.length →
      -9223372036854775808 ≤ (ws.take m).sum ∧ (ws.take m).sum < 9223372036854775808)
    (H2 : ∀ m, m ≤ ws.length →
      -9223372036854775808 ≤ (L : Int) * (ws.take m).sum ∧
        (L : Int) * (ws.take m).sum < 9223372036854775808)
    (hs : 0 < ws.sum) :
    ∀ m, thrT L ws m = Int.tdiv ((L : Int) * (ws.take m).sum) ws.sum := by
  have hsl : sumL ws = ws.sum := by
    have h := sumL_eq_sum ws H1 ws.length le_rfl
    rwa [List.take_length] at h
  intro m
  rcases le_or_lt m ws.length with hm | hm
  · unfold thrT
    rw [hsl, sumL_eq_sum ws H1 m hm, wrap64_eq_self (H2 m hm).1 (H2 m hm).2]
    have hrange := tdiv_range (H2 m hm).1 (H2 m hm).2 hs
    exact wrap64_eq_self hrange.1 hrange.2
  · have htake : ws.take m = ws := List.take_of_length_le (le_of_lt hm)
    have h2l := H2 ws.length le_rfl
    rw [List.take_length] at h2l
    unfold thrT
    rw [htake, hsl, wrap64_eq_self h2l.1 h2l.2]
    have hrange := tdiv_range h2l.1 h2l.2 hs
    exact wrap64_eq_self hrange.1 hrange.2

/-- For a positive divisor and a natural-number left side, floor division
(the spec's reading) and Go's truncated division agree on every comparison
`i < quotient`: they coincide for a non-negative dividend and are both
non-positive for a negative one. -/
lemma lt_fdiv_iff_lt_tdiv (a s : Int) (i : Nat) (hs : 0 < s) :
    ((i : Int) < Int.fdiv a s ↔ (i : Int) < Int.tdiv a s) := by
  rcases le_or_lt 0 a with ha | ha
  · rw [Int.fdiv_eq_tdiv ha (le_of_lt hs)]
  · have ht : Int.tdiv a s ≤ 0 := by
      have h1 : (0 : Int) ≤ Int.tdiv (-a) s :=
        Int.tdiv_nonneg (by omega) (le_of_lt hs)
      rw [Int.neg_tdiv] at h1
      omega
    have hf : Int.fdiv a s ≤ 0 := by
      rw [Int.fdiv_eq_ediv _ (le_of_lt hs)]
      exact le_of_lt (Int.ediv_neg' ha hs)
    have hi : (0 : Int) ≤ (i : Int) := Int.natCast_nonneg i
    constructor <;> intro h <;> omega

/-- A table index has exactly one least threshold-exceeding run count. -/
lemma leastM_unique (L : Nat) (ws : List Int) (i a b : Nat)
    (ha : leastM L ws i a) (hb : leastM L ws i b) : a = b := by
  rcases Nat.lt_trichotomy a b with h | h | h
  · have h1 := hb.2 a h
    have h2 := ha.1
    omega
  · exact h
  · have h1 := ha.2 b h
    have h2 := hb.1
    omega

/-- The inner loop advances from `m` consumed weights to exactly `mstar`,
the least count at or above `m` whose threshold exceeds `i`, without
panicking — provided such a count exists below `ws.length`. -/
lemma wInner_spec (L : Nat) (ws : List Int) (i : Nat) :
    ∀ (k m mstar : Nat), mstar - m = k → m ≤ mstar → mstar ≤ ws.length →
      ((i : Int) < thrT L ws mstar) →
      (∀ j, m ≤ j → j < mstar → thrT L ws j ≤ (i : Int)) →
      wInner L (sumL ws) i ((m : Int) - 1) (sumL (ws.take m)) (ws.drop m) =
        .ok (((mstar : Int) - 1), sumL (ws.take mstar), ws.drop mstar) := by
  intro k
  induction k with
  | zero =>
    intro m mstar hk hm hlen hlt hle
    have hmeq : m = mstar := by omega
    subst hmeq
    have hcond :
        ¬((i : Int) ≥ wrap64 (Int.tdiv (wrap64 ((L : Int) * sumL (ws.take m))) (sumL ws))) :=
      not_le.mpr hlt
    cases hd : ws.drop m with
    | nil => simp only [wInner]; rw [if_neg hcond]
    | cons w rs => simp only [wInner]; rw [if_neg hcond]
  | succ k ih =>
    intro m mstar hk hm hlen hlt hle
    have hmlt : m < mstar := by omega
    have hthr :
        (i : Int) ≥ wrap64 (Int.tdiv (wrap64 ((L : Int) * sumL (ws.take m))) (sumL ws)) :=
      hle m le_rfl hmlt
    have hmlen : m < ws.length := lt_of_lt_of_le hmlt hlen
    rw [List.drop_eq_getElem_cons hmlen]
    simp only [wInner]
    rw [if_pos hthr]
    have e1 : (m : Int) - 1 + 1 = ((m + 1 : Nat) : Int) - 1 := by push_cast; ring
    have e2 : wrap64 (sumL (ws.take m) + ws[m]) = sumL (ws.take (m + 1)) :=
      (sumL_take_succ ws m hmlen).symm
    rw [e1, e2]
    exact ih (m + 1) mstar (by omega) (by omega) hlen hlt (fun j hj1 hj2 => hle j (by omega) hj2)

/-- The outer loop writes, for each remaining index `i + d`, the entry
`uint32(S + (m - 1))` where `m` is the least weight count whose (truncated)
threshold exceeds that index. -/
lemma wOuter_spec (L : Nat) (ws : List Int) (S : Int)
    (hLthr : thrT L ws ws.length = (L : Int)) :
    ∀ (n i m : Nat), i + n = L → m ≤ ws.length →
      (∀ j, j < m → thrT L ws j ≤ (i : Int)) →
      ∃ out, wOuter L (sumL ws) S n i ((m : Int) - 1) (sumL (ws.take m)) (ws.drop m) = .ok out ∧
        out.length = n ∧
        ∀ d mm, d < n → leastM L ws (i + d) mm →
          out.getD d 0 = toUint32 (S + ((mm : Int) - 1)) := by
  intro n
  induction n with
  | zero =>
    intro i m _ _ _
    exact ⟨[], rfl, rfl, fun d mm hd _ => absurd hd (by omega)⟩
  | succ nn ih =>
    intro i m hiL hmlen hprev
    have hiL' : (i : Int) < thrT L ws ws.length := by
      rw [hLthr]
      exact_mod_cast (by omega : i < L)
    have hex : ∃ m', m ≤ m' ∧ (i : Int) < thrT L ws m' := ⟨ws.length, hmlen, hiL'⟩
    set mstar := Nat.find hex with hms
    obtain ⟨hm_le, hm_lt⟩ := Nat.find_spec hex
    have hm_min : ∀ j, m ≤ j → j < mstar → thrT L ws j ≤ (i : Int) := by
      intro j hj1 hj2
      have hnot := Nat.find_min hex hj2
      push_neg at hnot
      exact hnot hj1
    have hmstar_len : mstar ≤ ws.length := Nat.find_min' hex ⟨hmlen, hiL'⟩
    have hstep := wInner_spec L ws i (mstar - m) m mstar rfl hm_le hmstar_len hm_lt hm_min
    have hall : ∀ j, j < mstar → thrT L ws j ≤ (i : Int) := by
      intro j hj
      rcases lt_or_ge j m with hjm | hjm
      · exact hprev j hjm
      · exact hm_min j hjm hj
    have hnext : ∀ j, j < mstar → thrT L ws j ≤ ((i + 1 : Nat) : Int) := by
      intro j hj
      have h1 := hall j hj
      push_cast
      push_cast at h1
      omega
    obtain ⟨tl, htl, hlen, hchar⟩ := ih (i + 1) mstar (by omega) hmstar_len hnext
    refine ⟨toUint32 (S + ((mstar : Int) - 1)) :: tl, ?_, by simp [hlen], ?_⟩
    · simp only [wOuter, hstep, htl]
    · intro d mm hd hleast
      cases d with
      | zero =>
        have hLm : leastM L ws i mstar := ⟨hm_lt, hall⟩
        have hmm : mm = mstar := leastM_unique L ws i mm mstar (by simpa using hleast) hLm
        subst hmm
        rfl
      | succ dd =>
        have hre : leastM L ws ((i + 1) + dd) mm := by
          have harr : (i + 1) + dd = i + (dd + 1) := by omega
          rw [harr]; exact hleast
        have hfin := hchar dd mm (by omega) hre
        simpa using hfin

/-- C1 counterexample: the claim's entry formula `table[i] = S + j` fails as
an integer identity once the Go `uint32` conversion wraps: at `S = -1`,
weights `[1]`, table length 1, index 0 lies in run `j = 0` (its floor
threshold `1*1/1 = 1` exceeds 0), yet the stored entry is `4294967295`, not
`-1 + 0`. -/
theorem C1_weight_fill_cex :
    Weight.Fill ⟨-1, [1]⟩ [0] = .ok ⟨[4294967295], 1, none⟩ ∧
    ((0 : Int) < Int.fdiv ((1 : Int) * ([1].take (0 + 1)).sum) ([1] : List Int).sum) ∧
    ¬(((4294967295 : Nat) : Int) = -1 + ((0 : Nat) : Int)) :=
  ⟨rfl, by decide, by decide⟩

/-- C1 (amended): for every start `S`, weights `ws` and non-empty table with
`0 < sum(ws) ≤ len(table)`, provided the intermediate `int` computations stay
in 64-bit range — every prefix sum of the weights and every product
`len(table) * prefix-sum` lies in `[-2^63, 2^63)` — `Weight.Fill` returns
`(len(table), nil)` and sets `table[i]` to `(S + j)` reduced mod 2^32 (the Go
`uint32` conversion), where `j` is the least run index with
`i < floor(len(table) * (ws[0]+...+ws[j]) / sum)`; the claim's example L=10,
S=0, weights `[3,7]` yields `[0,0,0,1,1,1,1,1,1,1]`.  (Without the range
proviso Go's wrapping `int` arithmetic can flip a threshold negative and
shift every run, so the unqualified claim is false of the program.) -/
theorem C1_weight_fill :
    (∀ (S : Int) (ws : List Int) (tbl : List Nat),
      0 < tbl.length → 0 < ws.sum → ws.sum ≤ (tbl.length : Int) →
      (∀ m, m ≤ ws.length →
        -9223372036854775808 ≤ (ws.take m).sum ∧ (ws.take m).sum < 9223372036854775808) →
      (∀ m, m ≤ ws.length →
        -9223372036854775808 ≤ (tbl.length : Int) * (ws.take m).sum ∧
          (tbl.length : Int) * (ws.take m).sum < 9223372036854775808) →
      ∃ out, Weight.Fill ⟨S, ws⟩ tbl = .ok ⟨out, (tbl.length : Int), none⟩ ∧
        out.length = tbl.length ∧
        ∀ i j, i < tbl.length →
          ((i : Int) < Int.fdiv ((tbl.length : Int) * (ws.take (j + 1)).sum) ws.sum ∧
           ∀ k, k < j →
             ¬((i : Int) < Int.fdiv ((tbl.length : Int) * (ws.take (k + 1)).sum) ws.sum)) →
          out.getD i 0 = toUint32 (S + (j : Int))) ∧
    Weight.Fill ⟨0, [3, 7]⟩ (List.replicate 10 0) =
      .ok ⟨[0, 0, 0, 1, 1, 1, 1, 1, 1, 1], 10, none⟩ := by
  constructor
  · intro S ws tbl hL hs hcap H1 H2
    have hthr := thrT_eq_tdiv tbl.length ws H1 H2 hs
    have hsl : sumL ws = ws.sum := by
      have h := sumL_eq_sum ws H1 ws.length le_rfl
      rwa [List.take_length] at h
    have hs' : 0 < sumL ws := by rw [hsl]; exact hs
    have hLthr : thrT tbl.length ws ws.length = (tbl.length : Int) := by
      rw [hthr ws.length, List.take_length, Int.mul_tdiv_cancel _ (ne_of_gt hs)]
    obtain ⟨out, hout, hlen, hchar⟩ :=
      wOuter_spec tbl.length ws S hLthr tbl.length 0 0 (by omega) (Nat.zero_le _)
        (fun j hj => absurd hj (by omega))
    rw [show ((0 : Nat) : Int) - 1 = -1 by norm_num, show sumL (List.take 0 ws) = 0 from rfl,
      List.drop_zero] at hout
    refine ⟨out, ?_, hlen, ?_⟩
    · unfold Weight.Fill
      rw [if_neg (ne_of_gt hs'),
        if_neg (not_lt.mpr (show sumL ws ≤ (tbl.length : Int) by rw [hsl]; exact hcap))]
      simp only [hout]
    · intro i j hi hj
      obtain ⟨hj1, hj2⟩ := hj
      have hA : (i : Int) < thrT tbl.length ws (j + 1) := by
        rw [hthr (j + 1)]
        exact (lt_fdiv_iff_lt_tdiv ((tbl.length : Int) * (ws.take (j + 1)).sum)
          ws.sum i hs).mp hj1
      have hB : ∀ j', j' < j + 1 → thrT tbl.length ws j' ≤ (i : Int) := by
        intro j' hj'
        cases j' with
        | zero =>
          rw [thrT_zero]
          exact Int.natCast_nonneg i
        | succ k =>
          have hk : k < j := by omega
          have hnot := hj2 k hk
          rw [lt_fdiv_iff_lt_tdiv ((tbl.length : Int) * (ws.take (k + 1)).sum) ws.sum i hs]
            at hnot
          rw [hthr (k + 1)]
          exact not_lt.mp hnot
      have hres := hchar i (j + 1) hi (by simpa using (⟨hA, hB⟩ : leastM tbl.length ws i (j + 1)))
      have hcast : ((j + 1 : Nat) : Int) - 1 = (j : Int) := by push_cast; ring
      rw [hcast] at hres
      exact hres
  · rfl

/-- C1 witness: the amended weighted-fill theorem applied at the claim's own
example — start 0, weights `[3, 7]`, table length 10. -/
theorem C1_weight_fill_witness :
    ∃ out, Weight.Fill ⟨0, [3, 7]⟩ (List.replicate 10 0) =
        .ok ⟨out, ((List.replicate 10 0 : List Nat).length : Int), none⟩ ∧
      out.length = (List.replicate 10 0 : List Nat).length ∧
      ∀ i j, i < (List.replicate 10 0 : List Nat).length →
        ((i : Int) < Int.fdiv (((List.replicate 10 0 : List Nat).length : Int) *
            ([3, 7].take (j + 1)).sum) ([3, 7] : List Int).sum ∧
         ∀ k, k < j →
           ¬((i : Int) < Int.fdiv (((List.replicate 10 0 : List Nat).length : Int) *
               ([3, 7].take (k + 1)).sum) ([3, 7] : List Int).sum)) →
        out.getD i 0 = toUint32 (0 + (j : Int)) :=
  C1_weight_fill.1 0 [3, 7] (List.replicate 10 0) (by decide) (by decide) (by decide)
    (by decide) (by decide)

/-- C10: the part_007 and part_009 implementations of `GetFlowHash` agree —
same result, same error classification — on every transport behaviour in
which the device echoes the probed `indir_size` and `key_size` back in the
full-size response (both behave identically on every error path as well). -/
theorem C10_get_equiv (dev : Dev) (context : Nat)
    (hEcho : ∀ ctx i k r, dev.full ctx i k = .ok r → r.indir_size = i ∧ r.key_size = k) :
    GetFlowHash007 dev context = GetFlowHash009 dev context := by
  have hsame : getFlowHashIndirectTable007 dev = getFlowHashIndirectTable009 dev := rfl
  cases hr : dev.rings with
  | error e => simp only [GetFlowHash007, GetFlowHash009, hr]
  | ok rc =>
    cases hp : dev.probe context with
    | error e => simp only [GetFlowHash007, GetFlowHash009, hr, hp, hsame]
    | ok pr =>
      cases hf : dev.full context pr.indir_size pr.key_size with
      | error e => simp only [GetFlowHash007, GetFlowHash009, hr, hp, hf]
      | ok r =>
        obtain ⟨hi, hk⟩ := hEcho context pr.indir_size pr.key_size r hf
        simp only [GetFlowHash007, GetFlowHash009, hr, hp, hf, hi, hk, Nat.min_self,
          Nat.sub_self, List.replicate_zero, List.append_nil]

/-- C10 witness: both implementations agree on the concrete echoing device
`devC10`. -/
theorem C10_get_equiv_witness : GetFlowHash007 devC10 0 = GetFlowHash009 devC10 0 :=
  C10_get_equiv devC10 0 (fun ctx i k r h => by
    rw [show devC10.full ctx i k =
      Except.ok ⟨i, k, 1, List.replicate i 7, List.replicate k 9⟩ from rfl] at h
    cases h
    exact ⟨rfl, rfl⟩)

end EthSpec
